import Mathlib

/-!
Shallow embedding of the data-transformation core of `src/src/TrafficAnalytics.tsx`:
`generateColorFromString` (ColorAssigner), `generateChartSeries` (WeeklyAggregator)
and the `chartData` reduce (TimelineBuilder), together with theorems settling the
spec claims about them.

Modelling conventions
* JavaScript `Date` primitives are parameters of the embedded functions:
  `getDay : String → Option (Fin 7)` models `new Date(s).getDay()` (Sunday = 0 ..
  Saturday = 6; `none` models an invalid date, whose `getDay()` is `NaN`),
  `getTime : String → Option Int` models `new Date(s).getTime()` (`none` = `NaN`),
  and `now : Int` models `Date.now()`.
* JS numbers behave as exact integers in the value ranges these functions reach
  for the inputs considered here, so hash arithmetic is modelled on `Int` with an
  explicit wrap to signed 32-bit where the source applies `<<` / `&` / `>>`.
* `Math.floor(c * 1.2)` for a channel value `c ∈ 0..255` equals `6 * c / 5` in
  exact arithmetic; the double-precision product never rounds across an integer
  boundary in this range, so the embedding uses the exact form.
-/

/-- Wire shape of one session record (`GameData` in the source). -/
structure GameData where
  instance_name : String
  category_name : String
  start_time : String
  end_time : Option String
deriving DecidableEq, Repr

/-! ### ColorAssigner: `generateColorFromString` (source lines 61-82) -/

/-- Wrap an integer to the signed 32-bit range, as JS `ToInt32` does. -/
def toInt32 (n : Int) : Int :=
  let m := Int.emod n 4294967296
  if m < 2147483648 then m else m - 4294967296

/-- The rolling hash loop `hash = str.charCodeAt(i) + ((hash << 5) - hash)`.
`hash << 5` coerces to Int32 and shifts with 32-bit wraparound; the outer
subtraction and addition are plain number arithmetic (exact here). -/
def jsHash (cs : List Nat) : Int :=
  cs.foldl (fun h c => (c : Int) + (toInt32 (h * 32) - h)) 0

/-- Byte `k` of the hash's 32-bit pattern: models `(hash >> 8*k) & 0xFF`
(the source's extra `% 256` is a no-op on a masked byte). -/
def byteOf (h : Int) (k : Nat) : Nat :=
  (Int.emod h 4294967296).toNat / 256 ^ k % 256

/-- `Math.min(255, Math.floor(c * 1.2))` on a channel value. -/
def brighten (c : Nat) : Nat := min 255 (6 * c / 5)

/-- Lowercase hex digit, as produced by `Number.prototype.toString(16)`. -/
def toHexDigit (n : Nat) : Char := if n < 10 then Char.ofNat (48 + n) else Char.ofNat (87 + n)

/-- Two-digit lowercase hex rendering of a byte: `toString(16).padStart(2, '0')`. -/
def toHex2 (n : Nat) : String := String.mk [toHexDigit (n / 16 % 16), toHexDigit (n % 16)]

/-- `generateColorFromString`: hash the category name, mask three byte channels,
brighten each by 1.2 with clamp at 255, and format `#rrggbb` in lowercase hex.
`Char.toNat` agrees with `charCodeAt` on the Basic Multilingual Plane. -/
def generateColorFromString (s : String) : String :=
  let hash := jsHash (s.data.map Char.toNat)
  let r := byteOf hash 0
  let g := byteOf hash 1
  let b := byteOf hash 2
  "#" ++ toHex2 (brighten r) ++ toHex2 (brighten g) ++ toHex2 (brighten b)

/-- C3: ColorAssigner reproduces the worked examples: the empty string hashes to 0
and yields "#000000", and "A" (char code 65) hashes to 65, giving channels
r=65, g=0, b=0, brightened r = floor(65*1.2) = 78 = 0x4e, hence "#4e0000". -/
theorem colorAssigner_worked_examples :
    generateColorFromString "" = "#000000" ∧ generateColorFromString "A" = "#4e0000" := by
  constructor <;> decide

/-! ### WeeklyAggregator: `generateChartSeries` (source lines 116-133) -/

/-- One weekly series: a category name and its 7-slot weekday count vector. -/
structure WeeklySeries where
  name : String
  data : List Nat
deriving DecidableEq, Repr

/-- `Array.prototype.indexOf` on a list of category names. -/
def jsIndexOf : List String → String → Option Nat
  | [], _ => none
  | x :: xs, c => if x = c then some 0 else (jsIndexOf xs c).map (· + 1)

/-- Apply `f` to the element at index `n` (no change when `n` is out of range). -/
def modifyIdx {α : Type} (f : α → α) : Nat → List α → List α
  | _, [] => []
  | 0, x :: xs => f x :: xs
  | n + 1, x :: xs => x :: modifyIdx f n xs

/-- `day === 0 ? 6 : day - 1`: remap JS weekdays (Sun=0..Sat=6) to Mon=0..Sun=6. -/
def adjustedDay (day : Fin 7) : Nat := if day.val = 0 then 6 else day.val - 1

/-- The body of the `data.forEach` loop in `generateChartSeries`. When the start
date is invalid, `getDay()` is `NaN` and the write `data[NaN] += 1` touches a
non-index property, leaving slots 0..6 (and `data.some`, which visits only
array indices) unchanged, so it is embedded as a no-op on the vector. -/
def weeklyStep (getDay : String → Option (Fin 7)) (categories : List String)
    (series : List WeeklySeries) (game : GameData) : List WeeklySeries :=
  match getDay game.start_time with
  | none => series
  | some day =>
    match jsIndexOf categories game.category_name with
    | none => series
    | some i =>
      modifyIdx (fun s => ⟨s.name, modifyIdx (fun v => v + 1) (adjustedDay day) s.data⟩) i series

/-- The per-category count vectors before the final filter: one zero-filled
7-slot vector per category, then the `forEach` accumulation. -/
def weeklyCounts (getDay : String → Option (Fin 7)) (categories : List String)
    (data : List GameData) : List WeeklySeries :=
  data.foldl (weeklyStep getDay categories)
    (categories.map (fun c => ⟨c, List.replicate 7 0⟩))

/-- `generateChartSeries`: the accumulated series filtered to those with some
positive slot (`series.filter(serie => serie.data.some(value => value > 0))`). -/
def generateChartSeries (getDay : String → Option (Fin 7)) (categories : List String)
    (data : List GameData) : List WeeklySeries :=
  (weeklyCounts getDay categories data).filter (fun s => s.data.any (fun v => decide (0 < v)))

/-! ### Weekly aggregation lemmas -/

/-- `modifyIdx` leaves any projection it does not touch unchanged. -/
theorem map_modifyIdx {α β : Type} (g : α → β) (f : α → α) (h : ∀ a, g (f a) = g a) :
    ∀ (n : Nat) (l : List α), (modifyIdx f n l).map g = l.map g := by
  intro n l
  induction l generalizing n with
  | nil => cases n <;> rfl
  | cons x xs ih =>
    cases n with
    | zero => simp [modifyIdx, h]
    | succ m => simp [modifyIdx, ih]

/-- One aggregation step never changes the sequence of series names. -/
theorem weeklyStep_names (getDay : String → Option (Fin 7)) (cats : List String)
    (ss : List WeeklySeries) (g : GameData) :
    (weeklyStep getDay cats ss g).map WeeklySeries.name = ss.map WeeklySeries.name := by
  unfold weeklyStep
  cases getDay g.start_time with
  | none => rfl
  | some day =>
    cases jsIndexOf cats g.category_name with
    | none => rfl
    | some i =>
      exact map_modifyIdx WeeklySeries.name
        (fun s => ⟨s.name, modifyIdx (fun v => v + 1) (adjustedDay day) s.data⟩)
        (fun a => rfl) i ss

/-- The whole accumulation never changes the sequence of series names. -/
theorem weeklyFold_names (getDay : String → Option (Fin 7)) (cats : List String) :
    ∀ (data : List GameData) (ss : List WeeklySeries),
      (data.foldl (weeklyStep getDay cats) ss).map WeeklySeries.name
        = ss.map WeeklySeries.name := by
  intro data
  induction data with
  | nil => intro ss; rfl
  | cons g gs ih => intro ss; rw [List.foldl_cons, ih, weeklyStep_names]

/-- The pre-filter table has one series per input category, in input order. -/
theorem weeklyCounts_names (getDay : String → Option (Fin 7)) (cats : List String)
    (data : List GameData) :
    (weeklyCounts getDay cats data).map WeeklySeries.name = cats := by
  unfold weeklyCounts
  rw [weeklyFold_names, List.map_map]
  exact List.map_id'' (fun x => rfl) cats

/-- A record whose category is not found is a no-op for the aggregation step. -/
theorem weeklyStep_of_index_none (getDay : String → Option (Fin 7)) (cats : List String)
    (ss : List WeeklySeries) (g : GameData)
    (h : jsIndexOf cats g.category_name = none) : weeklyStep getDay cats ss g = ss := by
  unfold weeklyStep
  cases hd : getDay g.start_time with
  | none => rfl
  | some day => simp [h]

/-- A record whose start date is invalid is a no-op for the aggregation step. -/
theorem weeklyStep_of_invalid_date (getDay : String → Option (Fin 7)) (cats : List String)
    (ss : List WeeklySeries) (g : GameData)
    (h : getDay g.start_time = none) : weeklyStep getDay cats ss g = ss := by
  unfold weeklyStep
  rw [h]

/-- C1: the weekday remap. A record starting on a Wednesday (JS `getDay() = 3`)
with category "Combat", under `categories = ["Combat"]`, yields the vector
[0,0,1,0,0,0,0] (Mon=0..Sun=6); a record starting on a Sunday (JS `getDay() = 0`)
increments slot index 6 and leaves slot 0 at zero. -/
theorem weekly_weekday_remap (getDay : String → Option (Fin 7)) (g g2 : GameData) (c : String)
    (hW : getDay g.start_time = some 3) (hcat : g.category_name = "Combat")
    (hS : getDay g2.start_time = some 0) (hc2 : g2.category_name = c) :
    generateChartSeries getDay ["Combat"] [g] = [⟨"Combat", [0, 0, 1, 0, 0, 0, 0]⟩]
      ∧ generateChartSeries getDay [c] [g2] = [⟨c, [0, 0, 0, 0, 0, 0, 1]⟩] := by
  constructor
  · simp [generateChartSeries, weeklyCounts, weeklyStep, hW, hcat, jsIndexOf, adjustedDay,
      modifyIdx, List.replicate]
  · simp [generateChartSeries, weeklyCounts, weeklyStep, hS, hc2, jsIndexOf, adjustedDay,
      modifyIdx, List.replicate]

/-- Witness for C1 at concrete inputs. -/
theorem weekly_weekday_remap_witness :
    generateChartSeries (fun s => if s = "wed" then some 3 else some 0) ["Combat"]
        [⟨"i1", "Combat", "wed", none⟩] = [⟨"Combat", [0, 0, 1, 0, 0, 0, 0]⟩]
      ∧ generateChartSeries (fun s => if s = "wed" then some 3 else some 0) ["X"]
        [⟨"i2", "X", "sun", none⟩] = [⟨"X", [0, 0, 0, 0, 0, 0, 1]⟩] :=
  weekly_weekday_remap (fun s => if s = "wed" then some 3 else some 0)
    ⟨"i1", "Combat", "wed", none⟩ ⟨"i2", "X", "sun", none⟩ "X"
    (by decide) rfl (by decide) rfl

/-- C5: the output is exactly the filter of the full per-category table to series
with a positive slot; the table lists every input category in input order, so the
emitted series names form a sublist of (hence preserve the order of) the input
categories; every emitted series has some slot > 0 (an all-zero series never
appears), and every count is a natural number, hence >= 0. -/
theorem weekly_output_filtered_ordered (getDay : String → Option (Fin 7))
    (categories : List String) (data : List GameData) :
    generateChartSeries getDay categories data
        = (weeklyCounts getDay categories data).filter
            (fun s => s.data.any (fun v => decide (0 < v)))
      ∧ (weeklyCounts getDay categories data).map WeeklySeries.name = categories
      ∧ (∀ s ∈ generateChartSeries getDay categories data,
          s.data.any (fun v => decide (0 < v)) = true)
      ∧ ((generateChartSeries getDay categories data).map WeeklySeries.name).Sublist
          categories := by
  refine ⟨rfl, weeklyCounts_names getDay categories data, ?_, ?_⟩
  · intro s hs
    unfold generateChartSeries at hs
    exact (List.mem_filter.mp hs).2
  · have h := (List.filter_sublist (l := weeklyCounts getDay categories data)
      (p := fun s => s.data.any (fun v => decide (0 < v)))).map WeeklySeries.name
    rw [weeklyCounts_names] at h
    exact h

/-- C7: a record whose category is absent from the authoritative list is silently
ignored: the output on a batch containing it equals the output on the batch with
that record removed. -/
theorem weekly_unknown_category_ignored (getDay : String → Option (Fin 7))
    (categories : List String) (g : GameData) (data1 data2 : List GameData)
    (h : jsIndexOf categories g.category_name = none) :
    generateChartSeries getDay categories (data1 ++ g :: data2)
      = generateChartSeries getDay categories (data1 ++ data2) := by
  unfold generateChartSeries weeklyCounts
  rw [List.foldl_append, List.foldl_append, List.foldl_cons,
    weeklyStep_of_index_none getDay categories _ g h]

/-- Witness for C7: category "B" is not in ["A"], so the record is ignored. -/
theorem weekly_unknown_category_ignored_witness :
    generateChartSeries (fun _ => some 0) ["A"] [⟨"i", "B", "t", none⟩]
      = generateChartSeries (fun _ => some 0) ["A"] [] :=
  weekly_unknown_category_ignored (fun _ => some 0) ["A"] ⟨"i", "B", "t", none⟩ [] []
    (by decide)

/-- C10: a record whose start time does not parse to a valid date leaves every
slot 0..6 of every category's vector unchanged, even when its category is in the
list: the output equals the output on the batch with that record removed. -/
theorem weekly_invalid_date_ignored (getDay : String → Option (Fin 7))
    (categories : List String) (g : GameData) (data1 data2 : List GameData)
    (h : getDay g.start_time = none) :
    generateChartSeries getDay categories (data1 ++ g :: data2)
      = generateChartSeries getDay categories (data1 ++ data2) := by
  unfold generateChartSeries weeklyCounts
  rw [List.foldl_append, List.foldl_append, List.foldl_cons,
    weeklyStep_of_invalid_date getDay categories _ g h]

/-- Witness for C10: an unparseable start time, category present in the list. -/
theorem weekly_invalid_date_ignored_witness :
    generateChartSeries (fun s => if s = "bad" then none else some 0) ["A"]
        [⟨"i", "A", "bad", none⟩]
      = generateChartSeries (fun s => if s = "bad" then none else some 0) ["A"] [] :=
  weekly_invalid_date_ignored (fun s => if s = "bad" then none else some 0) ["A"]
    ⟨"i", "A", "bad", none⟩ [] [] (by decide)

/-! ### TimelineBuilder: the `chartData` reduce (source lines 135-158)

The reduce accumulates into a plain JS object keyed by category name. The
own properties are embedded as an association list in insertion order, and
`Object.values` is embedded with the JS ordinary-object key order: keys that
are canonical array indices first, in ascending numeric order, then the
remaining string keys in insertion order.

Property reads on the accumulator consult the prototype chain: for a category
name that is an `Object.prototype` member ("toString", "constructor", ...),
`acc[category]` yields a truthy inherited value even when no own bucket
exists, so `if (!acc[category])` skips bucket creation, and for a valid
record `acc[category].data.push` then reads `.data` off the inherited
function (or, for "__proto__", the prototype object), gets `undefined`, and
the `.push` access throws a `TypeError` that aborts the whole reduce. The
step is therefore `Option`-valued: `none` is the thrown `TypeError`. -/

/-- One timeline point `{x: instance, y: [startMillis, endMillis], color}`. -/
structure DataEntry where
  x : String
  y : List Int
  color : String
deriving DecidableEq, Repr

/-- One per-category timeline series `{name, data}`. -/
structure ChartElem where
  name : String
  data : List DataEntry
deriving DecidableEq, Repr

/-- `categoryColors[category] || '#CCCCCC'`: `undefined` (and the falsy empty
string) fall back to the neutral default color. -/
def fallbackColor : Option String → String
  | none => "#CCCCCC"
  | some c => if c = "" then "#CCCCCC" else c

/-- `end_time ? new Date(end_time).getTime() : Date.now()`: a `null` (or falsy
empty-string) end time resolves to the current instant. -/
def resolveEnd (getTime : String → Option Int) (now : Int) : Option String → Option Int
  | none => some now
  | some e => if e = "" then some now else getTime e

/-- The entry a record contributes when both resolved timestamps are valid. -/
def mkEntry (colorOf : String → Option String) (g : GameData) (st et : Int) : DataEntry :=
  ⟨g.instance_name, [st, et], fallbackColor (colorOf g.category_name)⟩

/-- The entry a record contributes, or `none` when either resolved timestamp is
`NaN` (the `!isNaN(startTime) && !isNaN(endTime)` guard fails). -/
def entryOpt (getTime : String → Option Int) (now : Int) (colorOf : String → Option String)
    (g : GameData) : Option DataEntry :=
  match getTime g.start_time, resolveEnd getTime now g.end_time with
  | some st, some et => some (mkEntry colorOf g st et)
  | some _, none => none
  | none, _ => none

/-- The own property names of `Object.prototype`: reading `({})[k]` for these
`k` yields a truthy inherited value (a built-in function, or the prototype
object itself through the `"__proto__"` accessor) instead of `undefined`. -/
def protoKeys : List String :=
  ["constructor", "hasOwnProperty", "isPrototypeOf", "propertyIsEnumerable",
   "toLocaleString", "toString", "valueOf", "__proto__",
   "__defineGetter__", "__defineSetter__", "__lookupGetter__", "__lookupSetter__"]

/-- Whether a plain object inherits a (truthy) value under this key. -/
def isProtoKey (s : String) : Bool := protoKeys.contains s

/-- The bucket-creation branch taken for a non-inherited key: append an empty
bucket for `c` when no own key `c` exists. -/
def addBucket (acc : List (String × ChartElem)) (c : String) : List (String × ChartElem) :=
  if acc.any (fun p => p.1 = c) then acc else acc ++ [(c, ⟨c, []⟩)]

/-- The successful-push branch: replace the value of the first (own) pair whose
key is `c` by `f` of it. -/
def updateAssoc (f : ChartElem → ChartElem) (c : String) :
    List (String × ChartElem) → List (String × ChartElem)
  | [] => []
  | p :: ps => if p.1 = c then (p.1, f p.2) :: ps else p :: updateAssoc f c ps

/-- The body of the `reduce` along the path where the category name inherits
nothing from `Object.prototype`: `!acc[category]` is then falsy exactly when no
own bucket exists, so the bucket is created on first sight (before any validity
check), and the push appends `{x, y, color}` when both timestamps are valid. -/
def bucketStep (getTime : String → Option Int) (now : Int) (colorOf : String → Option String)
    (acc : List (String × ChartElem)) (g : GameData) : List (String × ChartElem) :=
  let acc1 := addBucket acc g.category_name
  match entryOpt getTime now colorOf g with
  | some e => updateAssoc (fun el => ⟨el.name, el.data ++ [e]⟩) g.category_name acc1
  | none => acc1

/-- The whole reduce along the no-inherited-key path, in insertion order. -/
def bucketFold (getTime : String → Option Int) (now : Int) (colorOf : String → Option String)
    (records : List GameData) : List (String × ChartElem) :=
  records.foldl (bucketStep getTime now colorOf) []

/-- The body of the `reduce` on the plain-object accumulator, with prototype
lookups. `!acc[category]` is falsy only when the name is neither an own key nor
an `Object.prototype` member, so an inherited truthy value suppresses bucket
creation. On a valid record, `acc[category].data.push` resolves only through an
own bucket; with no own bucket (which, from the empty accumulator, happens
exactly for `Object.prototype` member names) the read yields the inherited
value, whose `.data` is `undefined`, and the `.push` access throws `TypeError`
(`none`). In every reachable successful push the category therefore has an own
bucket and is not a prototype member, where `categoryColors[category]` is the
own entry or `undefined`, i.e. `fallbackColor (colorOf category)`. The entry's
`startTime`/`endTime` validity is computed first (lines 139-140), as here. -/
def chartStep (getTime : String → Option Int) (now : Int) (colorOf : String → Option String)
    (acc : List (String × ChartElem)) (g : GameData) :
    Option (List (String × ChartElem)) :=
  let c := g.category_name
  let acc1 := if isProtoKey c then acc else addBucket acc c
  match entryOpt getTime now colorOf g with
  | some e =>
    if acc1.any (fun p => p.1 = c) then
      some (updateAssoc (fun el => ⟨el.name, el.data ++ [e]⟩) c acc1)
    else none
  | none => some acc1

/-- The accumulator object after the whole `reduce` (`none` when some record
made the reduce throw a `TypeError`). -/
def chartBuckets (getTime : String → Option Int) (now : Int) (colorOf : String → Option String)
    (records : List GameData) : Option (List (String × ChartElem)) :=
  records.foldlM (chartStep getTime now colorOf) []

/-- Numeric value of a digit string. -/
def numVal (s : String) : Nat := s.data.foldl (fun a c => a * 10 + (c.toNat - 48)) 0

/-- Whether a string is a canonical array-index key per the JS object model:
all digits, no leading zero (except "0" itself), value at most 2^32 - 2. -/
def isArrayIndex (s : String) : Bool :=
  match s.data with
  | [] => false
  | c :: cs =>
    (c :: cs).all (fun d => d.isDigit) && (!(c == '0') || cs.isEmpty)
      && decide (numVal s ≤ 4294967294)

/-- Insert a keyed pair into a list sorted ascending by numeric key value. -/
def insertAsc (p : String × ChartElem) :
    List (String × ChartElem) → List (String × ChartElem)
  | [] => [p]
  | q :: qs => if numVal p.1 ≤ numVal q.1 then p :: q :: qs else q :: insertAsc p qs

/-- Insertion sort ascending by numeric key value. -/
def sortAsc : List (String × ChartElem) → List (String × ChartElem)
  | [] => []
  | p :: ps => insertAsc p (sortAsc ps)

/-- `Object.values(acc)`: array-index keys first in ascending numeric order,
then the remaining keys in insertion order. -/
def objectValues (acc : List (String × ChartElem)) : List ChartElem :=
  (sortAsc (acc.filter (fun p => isArrayIndex p.1))
    ++ acc.filter (fun p => !isArrayIndex p.1)).map (fun p => p.2)

/-- The `chartData` expression: `Object.values(trafficData.reduce(...))`;
`none` when the reduce threw a `TypeError`. -/
def chartData (getTime : String → Option Int) (now : Int) (colorOf : String → Option String)
    (records : List GameData) : Option (List ChartElem) :=
  (chartBuckets getTime now colorOf records).map objectValues

/-- A record is valid when its resolved start and end timestamps are both
valid numbers (`!isNaN(startTime) && !isNaN(endTime)`). -/
def isValidRecord (getTime : String → Option Int) (now : Int) (g : GameData) : Bool :=
  (getTime g.start_time).isSome && (resolveEnd getTime now g.end_time).isSome

/-- The in-input-order list of entries the records of category `k` contribute. -/
def entriesFor (getTime : String → Option Int) (now : Int) (colorOf : String → Option String)
    (records : List GameData) (k : String) : List DataEntry :=
  (records.filter (fun g => decide (g.category_name = k))).filterMap
    (entryOpt getTime now colorOf)

/-- First-occurrence category sequence of a batch, continuing a seen-key list. -/
def firstOccFrom (seen : List String) : List GameData → List String
  | [] => []
  | g :: rs =>
    if g.category_name ∈ seen then firstOccFrom seen rs
    else g.category_name :: firstOccFrom (seen ++ [g.category_name]) rs

/-- The categories of a batch in order of first occurrence. -/
def firstOccCategories (records : List GameData) : List String :=
  firstOccFrom [] records

/-- Insert a key into a key list sorted ascending by numeric value. -/
def insertAscKey (k : String) : List String → List String
  | [] => [k]
  | q :: qs => if numVal k ≤ numVal q then k :: q :: qs else q :: insertAscKey k qs

/-- Insertion sort of keys, ascending by numeric value. -/
def sortAscKeys : List String → List String
  | [] => []
  | k :: ks => insertAscKey k (sortAscKeys ks)

/-- The JS ordinary-object key order applied to a (duplicate-free) key list:
array-index keys ascending by value first, then the rest in given order. -/
def jsKeyOrder (ks : List String) : List String :=
  sortAscKeys (ks.filter (fun k => isArrayIndex k)) ++ ks.filter (fun k => !isArrayIndex k)

/-! ### Timeline lemmas: keys, names and per-key data of the accumulator -/

/-- Data list stored under the first occurrence of key `k` (empty if absent). -/
def dataOf : List (String × ChartElem) → String → List DataEntry
  | [], _ => []
  | p :: ps, k => if p.1 = k then p.2.data else dataOf ps k

/-- Total number of entries stored in the accumulator. -/
def sumLen (acc : List (String × ChartElem)) : Nat :=
  (acc.map (fun p => p.2.data.length)).sum

/-- The record contributes an entry exactly when both timestamps are valid. -/
theorem entryOpt_isSome_eq (getTime : String → Option Int) (now : Int)
    (colorOf : String → Option String) (g : GameData) :
    (entryOpt getTime now colorOf g).isSome = isValidRecord getTime now g := by
  unfold entryOpt isValidRecord
  cases getTime g.start_time <;> cases resolveEnd getTime now g.end_time <;> rfl

/-- The `acc.any` test in `addBucket` decides key membership. -/
theorem any_key_iff (acc : List (String × ChartElem)) (c : String) :
    acc.any (fun p => decide (p.1 = c)) = true ↔ c ∈ acc.map Prod.fst := by
  rw [List.any_eq_true]
  constructor
  · rintro ⟨p, hp, hpc⟩
    exact List.mem_map.mpr ⟨p, hp, of_decide_eq_true hpc⟩
  · intro h
    rcases List.mem_map.mp h with ⟨p, hp, hpc⟩
    exact ⟨p, hp, decide_eq_true hpc⟩

/-- Keys after `addBucket`: unchanged when present, appended when absent. -/
theorem addBucket_keys (acc : List (String × ChartElem)) (c : String) :
    (addBucket acc c).map Prod.fst
      = acc.map Prod.fst ++ if c ∈ acc.map Prod.fst then [] else [c] := by
  unfold addBucket
  by_cases h : c ∈ acc.map Prod.fst
  · rw [if_pos ((any_key_iff acc c).mpr h), if_pos h, List.append_nil]
  · rw [if_neg (fun hx => h ((any_key_iff acc c).mp hx)), if_neg h, List.map_append]
    rfl

/-- `updateAssoc` never changes the key sequence. -/
theorem updateAssoc_keys (f : ChartElem → ChartElem) (c : String) :
    ∀ l : List (String × ChartElem), (updateAssoc f c l).map Prod.fst = l.map Prod.fst := by
  intro l
  induction l with
  | nil => rfl
  | cons p ps ih =>
    unfold updateAssoc
    by_cases h : p.1 = c
    · rw [if_pos h]; rfl
    · rw [if_neg h, List.map_cons, List.map_cons, ih]

/-- Keys after one reduce step: the record's category is appended if new. -/
theorem bucketStep_keys (getTime : String → Option Int) (now : Int)
    (colorOf : String → Option String) (acc : List (String × ChartElem)) (g : GameData) :
    (bucketStep getTime now colorOf acc g).map Prod.fst
      = acc.map Prod.fst
          ++ if g.category_name ∈ acc.map Prod.fst then [] else [g.category_name] := by
  unfold bucketStep
  cases entryOpt getTime now colorOf g with
  | none => exact addBucket_keys acc g.category_name
  | some e => rw [updateAssoc_keys, addBucket_keys]

/-- Unfolding equation of `firstOccFrom` on a cons. -/
theorem firstOccFrom_cons (seen : List String) (g : GameData) (rs : List GameData) :
    firstOccFrom seen (g :: rs)
      = if g.category_name ∈ seen then firstOccFrom seen rs
        else g.category_name :: firstOccFrom (seen ++ [g.category_name]) rs := rfl

/-- Keys of the whole reduce: first-occurrence order, continuing the seen keys. -/
theorem chartFold_keys (getTime : String → Option Int) (now : Int)
    (colorOf : String → Option String) :
    ∀ (rs : List GameData) (acc : List (String × ChartElem)),
      ((rs.foldl (bucketStep getTime now colorOf) acc).map Prod.fst)
        = acc.map Prod.fst ++ firstOccFrom (acc.map Prod.fst) rs := by
  intro rs
  induction rs with
  | nil => intro acc; rw [List.foldl_nil]; simp [firstOccFrom]
  | cons g rs ih =>
    intro acc
    rw [List.foldl_cons, ih, bucketStep_keys, firstOccFrom_cons]
    by_cases h : g.category_name ∈ acc.map Prod.fst
    · simp only [if_pos h, List.append_nil]
    · simp only [if_neg h, List.append_assoc, List.singleton_append]

/-- Keys of the accumulator: the batch's categories in first-occurrence order. -/
theorem bucketFold_keys_eq (getTime : String → Option Int) (now : Int)
    (colorOf : String → Option String) (records : List GameData) :
    (bucketFold getTime now colorOf records).map Prod.fst = firstOccCategories records := by
  unfold bucketFold firstOccCategories
  rw [chartFold_keys]
  rfl

/-- Appending a fresh empty bucket does not change any key's stored data. -/
theorem dataOf_append_empty (acc : List (String × ChartElem)) (c k : String) :
    dataOf (acc ++ [(c, ⟨c, []⟩)]) k = dataOf acc k := by
  induction acc with
  | nil =>
    unfold dataOf
    by_cases h : c = k <;> simp [h, dataOf]
  | cons p ps ih =>
    unfold dataOf
    rw [List.cons_append]
    by_cases h : p.1 = k <;> simp [h, ih, dataOf]

/-- `addBucket` does not change any key's stored data. -/
theorem dataOf_addBucket (acc : List (String × ChartElem)) (c k : String) :
    dataOf (addBucket acc c) k = dataOf acc k := by
  unfold addBucket
  by_cases h : acc.any (fun p => decide (p.1 = c)) = true
  · rw [if_pos h]
  · rw [if_neg h]
    exact dataOf_append_empty acc c k

/-- `updateAssoc` at one key leaves every other key's data unchanged. -/
theorem dataOf_updateAssoc_ne (f : ChartElem → ChartElem) (c k : String) (hk : k ≠ c) :
    ∀ l : List (String × ChartElem), dataOf (updateAssoc f c l) k = dataOf l k := by
  intro l
  induction l with
  | nil => rfl
  | cons p ps ih =>
    unfold updateAssoc
    by_cases h : p.1 = c
    · have hpk : ¬ p.1 = k := fun hx => hk (hx ▸ h ▸ rfl)
      rw [if_pos h]
      unfold dataOf
      rw [if_neg hpk, if_neg hpk]
    · rw [if_neg h]
      unfold dataOf
      by_cases hpk : p.1 = k
      · rw [if_pos hpk, if_pos hpk]
      · rw [if_neg hpk, if_neg hpk, ih]

/-- Pushing an entry under a present key appends it to that key's data. -/
theorem dataOf_updateAssoc_push (e : DataEntry) (c : String) :
    ∀ l : List (String × ChartElem), c ∈ l.map Prod.fst →
      dataOf (updateAssoc (fun el => ⟨el.name, el.data ++ [e]⟩) c l) c
        = dataOf l c ++ [e] := by
  intro l
  induction l with
  | nil => intro h; cases h
  | cons p ps ih =>
    intro hmem
    unfold updateAssoc
    by_cases h : p.1 = c
    · rw [if_pos h]
      unfold dataOf
      rw [if_pos h, if_pos h]
    · rw [if_neg h]
      unfold dataOf
      rw [if_neg h, if_neg h]
      refine ih ?_
      rcases List.mem_cons.mp hmem with hc | hc
      · exact absurd hc.symm h
      · exact hc

/-- After `addBucket acc c`, key `c` is present. -/
theorem mem_keys_addBucket (acc : List (String × ChartElem)) (c : String) :
    c ∈ (addBucket acc c).map Prod.fst := by
  rw [addBucket_keys]
  by_cases h : c ∈ acc.map Prod.fst
  · exact List.mem_append.mpr (Or.inl h)
  · rw [if_neg h]
    exact List.mem_append.mpr (Or.inr (List.mem_singleton.mpr rfl))

/-- One reduce step appends the record's entry (if valid) to its category's
data and leaves every other key's data unchanged. -/
theorem bucketStep_dataOf (getTime : String → Option Int) (now : Int)
    (colorOf : String → Option String) (acc : List (String × ChartElem))
    (g : GameData) (k : String) :
    dataOf (bucketStep getTime now colorOf acc g) k
      = dataOf acc k
          ++ if g.category_name = k then (entryOpt getTime now colorOf g).toList else [] := by
  unfold bucketStep
  cases entryOpt getTime now colorOf g with
  | none =>
    rw [dataOf_addBucket]
    by_cases h : g.category_name = k <;> simp [h]
  | some e =>
    by_cases h : g.category_name = k
    · subst h
      rw [dataOf_updateAssoc_push e g.category_name _ (mem_keys_addBucket acc g.category_name),
        dataOf_addBucket]
      simp
    · rw [dataOf_updateAssoc_ne _ _ _ (fun hx => h hx.symm), dataOf_addBucket]
      simp [h]

/-- `entriesFor` on a cons: the head contributes its entry when it matches. -/
theorem entriesFor_cons (getTime : String → Option Int) (now : Int)
    (colorOf : String → Option String) (g : GameData) (rs : List GameData) (k : String) :
    entriesFor getTime now colorOf (g :: rs) k
      = (if g.category_name = k then (entryOpt getTime now colorOf g).toList else [])
          ++ entriesFor getTime now colorOf rs k := by
  unfold entriesFor
  rw [List.filter_cons]
  by_cases h : g.category_name = k
  · rw [if_pos (decide_eq_true h), if_pos h, List.filterMap_cons]
    cases entryOpt getTime now colorOf g <;> rfl
  · rw [if_neg (fun hx => h (of_decide_eq_true hx)), if_neg h, List.nil_append]

/-- Per-key data of the whole reduce, relative to a starting accumulator. -/
theorem chartFold_dataOf (getTime : String → Option Int) (now : Int)
    (colorOf : String → Option String) (k : String) :
    ∀ (rs : List GameData) (acc : List (String × ChartElem)),
      dataOf (rs.foldl (bucketStep getTime now colorOf) acc) k
        = dataOf acc k ++ entriesFor getTime now colorOf rs k := by
  intro rs
  induction rs with
  | nil =>
    intro acc
    rw [List.foldl_nil]
    simp [entriesFor]
  | cons g rs ih =>
    intro acc
    rw [List.foldl_cons, ih, bucketStep_dataOf, entriesFor_cons, List.append_assoc]

/-- The accumulator stores, under each category key, exactly the entries its
valid records contribute, in input order. -/
theorem bucketFold_dataOf_eq (getTime : String → Option Int) (now : Int)
    (colorOf : String → Option String) (records : List GameData) (k : String) :
    dataOf (bucketFold getTime now colorOf records) k
      = entriesFor getTime now colorOf records k := by
  unfold bucketFold
  rw [chartFold_dataOf]
  rfl

/-- Every pair the accumulator holds satisfies `value.name = key`. -/
theorem addBucket_names (acc : List (String × ChartElem)) (c : String)
    (h : ∀ p ∈ acc, p.2.name = p.1) : ∀ p ∈ addBucket acc c, p.2.name = p.1 := by
  unfold addBucket
  by_cases hm : acc.any (fun p => decide (p.1 = c)) = true
  · rw [if_pos hm]; exact h
  · rw [if_neg hm]
    intro p hp
    rcases List.mem_append.mp hp with hp | hp
    · exact h p hp
    · rw [List.mem_singleton.mp hp]

/-- `updateAssoc` with a name-preserving function keeps `value.name = key`. -/
theorem updateAssoc_names (f : ChartElem → ChartElem) (c : String)
    (hf : ∀ e, (f e).name = e.name) :
    ∀ l : List (String × ChartElem), (∀ p ∈ l, p.2.name = p.1) →
      ∀ p ∈ updateAssoc f c l, p.2.name = p.1 := by
  intro l
  induction l with
  | nil => intro _ p hp; cases hp
  | cons q qs ih =>
    intro h p hp
    unfold updateAssoc at hp
    by_cases hq : q.1 = c
    · rw [if_pos hq] at hp
      rcases List.mem_cons.mp hp with hp | hp
      · rw [hp]
        show (f q.2).name = q.1
        rw [hf, h q (List.mem_cons_self q qs)]
      · exact h p (List.mem_cons.mpr (Or.inr hp))
    · rw [if_neg hq] at hp
      rcases List.mem_cons.mp hp with hp | hp
      · rw [hp]; exact h q (List.mem_cons_self q qs)
      · exact ih (fun r hr => h r (List.mem_cons.mpr (Or.inr hr))) p hp

/-- The reduce step keeps `value.name = key` for every stored pair. -/
theorem bucketStep_names (getTime : String → Option Int) (now : Int)
    (colorOf : String → Option String) (acc : List (String × ChartElem)) (g : GameData)
    (h : ∀ p ∈ acc, p.2.name = p.1) :
    ∀ p ∈ bucketStep getTime now colorOf acc g, p.2.name = p.1 := by
  unfold bucketStep
  cases entryOpt getTime now colorOf g with
  | none => exact addBucket_names acc g.category_name h
  | some e =>
    exact updateAssoc_names (fun el => ⟨el.name, el.data ++ [e]⟩) g.category_name
      (fun el => rfl) _ (addBucket_names acc g.category_name h)

/-- Every pair of the final accumulator satisfies `value.name = key`. -/
theorem bucketFold_names (getTime : String → Option Int) (now : Int)
    (colorOf : String → Option String) (records : List GameData) :
    ∀ p ∈ bucketFold getTime now colorOf records, p.2.name = p.1 := by
  unfold bucketFold
  have main : ∀ (rs : List GameData) (acc : List (String × ChartElem)),
      (∀ p ∈ acc, p.2.name = p.1) →
      ∀ p ∈ rs.foldl (bucketStep getTime now colorOf) acc, p.2.name = p.1 := by
    intro rs
    induction rs with
    | nil => intro acc h; exact h
    | cons g gs ih =>
      intro acc h
      rw [List.foldl_cons]
      exact ih _ (bucketStep_names getTime now colorOf acc g h)
  exact main records [] (fun p hp => absurd hp (List.not_mem_nil p))

/-- The first-occurrence key sequence avoids the seen keys and has no duplicate. -/
theorem firstOccFrom_nodup :
    ∀ (rs : List GameData) (seen : List String),
      (firstOccFrom seen rs).Nodup ∧ ∀ k ∈ firstOccFrom seen rs, k ∉ seen := by
  intro rs
  induction rs with
  | nil => intro seen; exact ⟨List.nodup_nil, fun k hk => absurd hk (List.not_mem_nil k)⟩
  | cons g gs ih =>
    intro seen
    rw [firstOccFrom_cons]
    by_cases h : g.category_name ∈ seen
    · rw [if_pos h]; exact ih seen
    · rw [if_neg h]
      obtain ⟨hnd, hfresh⟩ := ih (seen ++ [g.category_name])
      refine ⟨List.nodup_cons.mpr ⟨?_, hnd⟩, ?_⟩
      · intro hmem
        exact hfresh _ hmem (List.mem_append.mpr (Or.inr (List.mem_singleton.mpr rfl)))
      · intro k hk
        rcases List.mem_cons.mp hk with hk | hk
        · rw [hk]; exact h
        · intro hks
          exact hfresh k hk (List.mem_append.mpr (Or.inl hks))

/-- The batch's first-occurrence category list has no duplicates. -/
theorem firstOccCategories_nodup (records : List GameData) :
    (firstOccCategories records).Nodup :=
  (firstOccFrom_nodup records []).1

/-- Every record's category occurs in the first-occurrence list. -/
theorem mem_firstOccFrom :
    ∀ (rs : List GameData) (seen : List String) (g : GameData), g ∈ rs →
      g.category_name ∈ seen ∨ g.category_name ∈ firstOccFrom seen rs := by
  intro rs
  induction rs with
  | nil => intro seen g hg; cases hg
  | cons r rs ih =>
    intro seen g hg
    rw [firstOccFrom_cons]
    by_cases h : r.category_name ∈ seen
    · rw [if_pos h]
      rcases List.mem_cons.mp hg with hg | hg
      · exact Or.inl (hg ▸ h)
      · exact ih seen g hg
    · rw [if_neg h]
      rcases List.mem_cons.mp hg with hg | hg
      · exact Or.inr (hg ▸ List.mem_cons_self _ _)
      · rcases ih (seen ++ [r.category_name]) g hg with hs | ht
        · rcases List.mem_append.mp hs with hs | hs
          · exact Or.inl hs
          · exact Or.inr (List.mem_singleton.mp hs ▸ List.mem_cons_self _ _)
        · exact Or.inr (List.mem_cons.mpr (Or.inr ht))

/-- Every record's category is a key of the batch's first-occurrence list. -/
theorem mem_firstOccCategories (records : List GameData) (g : GameData) (hg : g ∈ records) :
    g.category_name ∈ firstOccCategories records := by
  rcases mem_firstOccFrom records [] g hg with h | h
  · cases h
  · exact h

/-! ### `Object.values` lemmas: permutation, membership, key order, totals -/

/-- Sorted insertion produces a permutation of consing. -/
theorem insertAsc_perm (p : String × ChartElem) :
    ∀ l : List (String × ChartElem), (insertAsc p l).Perm (p :: l) := by
  intro l
  induction l with
  | nil => exact List.Perm.refl _
  | cons q qs ih =>
    unfold insertAsc
    by_cases h : numVal p.1 ≤ numVal q.1
    · rw [if_pos h]
    · rw [if_neg h]
      exact (ih.cons q).trans (List.Perm.swap p q qs)

/-- Insertion sort permutes its input. -/
theorem sortAsc_perm : ∀ l : List (String × ChartElem), (sortAsc l).Perm l := by
  intro l
  induction l with
  | nil => exact List.Perm.refl _
  | cons p ps ih => exact (insertAsc_perm p (sortAsc ps)).trans (ih.cons p)

/-- The reordered pair list inside `objectValues` permutes the accumulator. -/
theorem objectValues_pairs_perm (acc : List (String × ChartElem)) :
    (sortAsc (acc.filter (fun p => isArrayIndex p.1))
      ++ acc.filter (fun p => !isArrayIndex p.1)).Perm acc :=
  ((sortAsc_perm _).append_right _).trans
    (List.filter_append_perm (fun p => isArrayIndex p.1) acc)

/-- Every stored value appears in `Object.values`. -/
theorem mem_objectValues {acc : List (String × ChartElem)} {p : String × ChartElem}
    (hp : p ∈ acc) : p.2 ∈ objectValues acc := by
  unfold objectValues
  exact List.mem_map.mpr ⟨p, ((objectValues_pairs_perm acc).mem_iff).mpr hp, rfl⟩

/-- Every element of `Object.values` is a stored value. -/
theorem objectValues_mem_elim {acc : List (String × ChartElem)} {e : ChartElem}
    (he : e ∈ objectValues acc) : ∃ p ∈ acc, p.2 = e := by
  unfold objectValues at he
  rcases List.mem_map.mp he with ⟨p, hp, hpe⟩
  exact ⟨p, ((objectValues_pairs_perm acc).mem_iff).mp hp, hpe⟩

/-- `Object.values` preserves the total number of stored entries. -/
theorem objectValues_sumLen (acc : List (String × ChartElem)) :
    ((objectValues acc).map (fun e => e.data.length)).sum = sumLen acc := by
  unfold objectValues sumLen
  rw [List.map_map]
  exact ((objectValues_pairs_perm acc).map (fun p => p.2.data.length)).sum_eq

/-- Keys of a sorted insertion are the key inserted into the keys. -/
theorem map_fst_insertAsc (p : String × ChartElem) :
    ∀ l : List (String × ChartElem),
      (insertAsc p l).map Prod.fst = insertAscKey p.1 (l.map Prod.fst) := by
  intro l
  induction l with
  | nil => rfl
  | cons q qs ih =>
    show (insertAsc p (q :: qs)).map Prod.fst = insertAscKey p.1 (q.1 :: qs.map Prod.fst)
    unfold insertAsc insertAscKey
    by_cases h : numVal p.1 ≤ numVal q.1
    · rw [if_pos h, if_pos h]; rfl
    · rw [if_neg h, if_neg h, List.map_cons, ih]

/-- Keys of the sorted pairs are the sorted keys. -/
theorem map_fst_sortAsc :
    ∀ l : List (String × ChartElem), (sortAsc l).map Prod.fst = sortAscKeys (l.map Prod.fst) := by
  intro l
  induction l with
  | nil => rfl
  | cons p ps ih =>
    show (insertAsc p (sortAsc ps)).map Prod.fst
      = insertAscKey p.1 (sortAscKeys (ps.map Prod.fst))
    rw [map_fst_insertAsc, ih]

/-- Filtering pairs on a key predicate commutes with taking keys. -/
theorem map_fst_filter (q : String → Bool) :
    ∀ l : List (String × ChartElem),
      (l.filter (fun p => q p.1)).map Prod.fst = (l.map Prod.fst).filter q := by
  intro l
  induction l with
  | nil => rfl
  | cons p ps ih =>
    rw [List.filter_cons, List.map_cons, List.filter_cons]
    by_cases h : q p.1 = true
    · rw [if_pos h, if_pos h, List.map_cons, ih]
    · rw [if_neg h, if_neg h, ih]

/-- With `value.name = key` throughout, the names emitted by `Object.values`
are exactly the JS ordinary-object key order of the stored keys. -/
theorem objectValues_map_name (acc : List (String × ChartElem))
    (h : ∀ p ∈ acc, p.2.name = p.1) :
    (objectValues acc).map ChartElem.name = jsKeyOrder (acc.map Prod.fst) := by
  unfold objectValues jsKeyOrder
  rw [List.map_map]
  have hmem : ∀ p ∈ sortAsc (acc.filter (fun p => isArrayIndex p.1))
      ++ acc.filter (fun p => !isArrayIndex p.1), p.2.name = p.1 := by
    intro p hp
    exact h p (((objectValues_pairs_perm acc).mem_iff).mp hp)
  refine Eq.trans (List.map_congr_left (fun p hp => hmem p hp)) ?_
  rw [List.map_append, map_fst_sortAsc, map_fst_filter isArrayIndex,
    map_fst_filter (fun k => !isArrayIndex k)]

/-- In a duplicate-free accumulator, `dataOf` at a stored key reads its value. -/
theorem dataOf_eq_of_mem_nodup :
    ∀ l : List (String × ChartElem), (l.map Prod.fst).Nodup →
      ∀ p ∈ l, dataOf l p.1 = p.2.data := by
  intro l
  induction l with
  | nil => intro _ p hp; cases hp
  | cons q qs ih =>
    intro hnd p hp
    rw [List.map_cons, List.nodup_cons] at hnd
    unfold dataOf
    rcases List.mem_cons.mp hp with hp | hp
    · rw [hp, if_pos rfl]
    · by_cases hq : q.1 = p.1
      · exact absurd (hq ▸ List.mem_map.mpr ⟨p, hp, rfl⟩) hnd.1
      · rw [if_neg hq]
        exact ih hnd.2 p hp

/-! ### Entry-count bookkeeping -/

/-- `addBucket` adds no entry. -/
theorem sumLen_addBucket (acc : List (String × ChartElem)) (c : String) :
    sumLen (addBucket acc c) = sumLen acc := by
  unfold addBucket
  by_cases h : acc.any (fun p => decide (p.1 = c)) = true
  · rw [if_pos h]
  · rw [if_neg h]
    unfold sumLen
    rw [List.map_append, List.sum_append]
    simp

/-- Pushing one entry under a present key adds exactly one entry. -/
theorem sumLen_updateAssoc_push (e : DataEntry) (c : String) :
    ∀ l : List (String × ChartElem), c ∈ l.map Prod.fst →
      sumLen (updateAssoc (fun el => ⟨el.name, el.data ++ [e]⟩) c l) = sumLen l + 1 := by
  intro l
  induction l with
  | nil => intro h; cases h
  | cons p ps ih =>
    intro hmem
    unfold updateAssoc sumLen
    by_cases h : p.1 = c
    · rw [if_pos h]
      simp [Nat.add_assoc, Nat.add_comm, Nat.add_left_comm]
    · rw [if_neg h]
      have hc : c ∈ ps.map Prod.fst := by
        rcases List.mem_cons.mp hmem with hc | hc
        · exact absurd hc.symm h
        · exact hc
      have := ih hc
      unfold sumLen at this
      rw [List.map_cons, List.sum_cons, List.map_cons, List.sum_cons, this,
        Nat.add_assoc]

/-- One reduce step adds one entry exactly when the record is valid. -/
theorem sumLen_bucketStep (getTime : String → Option Int) (now : Int)
    (colorOf : String → Option String) (acc : List (String × ChartElem)) (g : GameData) :
    sumLen (bucketStep getTime now colorOf acc g)
      = sumLen acc + if isValidRecord getTime now g then 1 else 0 := by
  unfold bucketStep
  rw [← entryOpt_isSome_eq getTime now colorOf g]
  cases entryOpt getTime now colorOf g with
  | none => rw [sumLen_addBucket]; rfl
  | some e =>
    rw [sumLen_updateAssoc_push e g.category_name _ (mem_keys_addBucket acc g.category_name),
      sumLen_addBucket]
    rfl

/-- The reduce stores one entry per valid record. -/
theorem sumLen_bucketFold (getTime : String → Option Int) (now : Int)
    (colorOf : String → Option String) :
    ∀ (rs : List GameData) (acc : List (String × ChartElem)),
      sumLen (rs.foldl (bucketStep getTime now colorOf) acc)
        = sumLen acc + (rs.filter (isValidRecord getTime now)).length := by
  intro rs
  induction rs with
  | nil => intro acc; simp
  | cons g gs ih =>
    intro acc
    rw [List.foldl_cons, ih, sumLen_bucketStep, List.filter_cons]
    by_cases h : isValidRecord getTime now g = true
    · rw [if_pos h, if_pos h, List.length_cons]
      omega
    · rw [if_neg h, if_neg h]
      omega


/-! ### Bridging the plain-object reduce to the no-inherited-key path -/

/-- On a record whose category inherits nothing from `Object.prototype`, the
reduce step cleanly performs the bucket-create/push path and cannot throw. -/
theorem chartStep_eq_of_not_proto (getTime : String → Option Int) (now : Int)
    (colorOf : String → Option String) (acc : List (String × ChartElem)) (g : GameData)
    (h : isProtoKey g.category_name = false) :
    chartStep getTime now colorOf acc g
      = some (bucketStep getTime now colorOf acc g) := by
  have hcond : (addBucket acc g.category_name).any
      (fun p => decide (p.1 = g.category_name)) = true :=
    (any_key_iff (addBucket acc g.category_name) g.category_name).mpr
      (mem_keys_addBucket acc g.category_name)
  unfold chartStep bucketStep
  cases entryOpt getTime now colorOf g with
  | none => simp [h]
  | some e => simp [h, hcond]

/-- When no record's category inherits from `Object.prototype`, the whole
reduce completes and equals the no-inherited-key fold. -/
theorem chartFold_eq_of_not_proto (getTime : String → Option Int) (now : Int)
    (colorOf : String → Option String) :
    ∀ (records : List GameData) (acc : List (String × ChartElem)),
      (∀ g ∈ records, isProtoKey g.category_name = false) →
      records.foldlM (chartStep getTime now colorOf) acc
        = some (records.foldl (bucketStep getTime now colorOf) acc) := by
  intro records
  induction records with
  | nil => intro acc _; rfl
  | cons g rs ih =>
    intro acc h
    rw [List.foldlM_cons,
      chartStep_eq_of_not_proto getTime now colorOf acc g (h g (List.mem_cons_self g rs))]
    show rs.foldlM (chartStep getTime now colorOf) (bucketStep getTime now colorOf acc g)
      = _
    rw [List.foldl_cons]
    exact ih _ (fun r hr => h r (List.mem_cons.mpr (Or.inr hr)))

/-- Convert the decidable batch-level no-prototype-name test to the
per-record hypothesis. -/
theorem noProto_forall {records : List GameData}
    (h : records.all (fun g => !isProtoKey g.category_name) = true) :
    ∀ g ∈ records, isProtoKey g.category_name = false := by
  intro g hg
  have h2 := List.all_eq_true.mp h g hg
  simpa using h2

/-- When no record's category name is an `Object.prototype` member, the build
succeeds and produces the no-inherited-key fold's values. -/
theorem chartData_some_of_not_proto (getTime : String → Option Int) (now : Int)
    (colorOf : String → Option String) (records : List GameData)
    (h : ∀ g ∈ records, isProtoKey g.category_name = false) :
    chartData getTime now colorOf records
      = some (objectValues (bucketFold getTime now colorOf records)) := by
  unfold chartData chartBuckets bucketFold
  rw [chartFold_eq_of_not_proto getTime now colorOf records [] h]
  rfl

/-- Along the no-inherited-key path, every emitted series' data is exactly the
in-order entries its category's records contribute. -/
theorem bucketFold_elem_data (getTime : String → Option Int) (now : Int)
    (colorOf : String → Option String) (records : List GameData) :
    ∀ e ∈ objectValues (bucketFold getTime now colorOf records),
      e.data = entriesFor getTime now colorOf records e.name := by
  intro e he
  obtain ⟨p, hp, hpe⟩ := objectValues_mem_elim he
  have hname : e.name = p.1 := by
    rw [← hpe]
    exact bucketFold_names getTime now colorOf records p hp
  have hnd : ((bucketFold getTime now colorOf records).map Prod.fst).Nodup := by
    rw [bucketFold_keys_eq]
    exact firstOccCategories_nodup records
  have hdata := dataOf_eq_of_mem_nodup _ hnd p hp
  rw [hname, ← hpe, ← bucketFold_dataOf_eq getTime now colorOf records p.1, hdata]

/-- Along the no-inherited-key path, every record's category (valid record or
not) appears as an output series. -/
theorem bucketFold_key_exists (getTime : String → Option Int) (now : Int)
    (colorOf : String → Option String) (records : List GameData) (g : GameData)
    (hg : g ∈ records) :
    ∃ e ∈ objectValues (bucketFold getTime now colorOf records),
      e.name = g.category_name := by
  have hk : g.category_name ∈ (bucketFold getTime now colorOf records).map Prod.fst := by
    rw [bucketFold_keys_eq]
    exact mem_firstOccCategories records g hg
  obtain ⟨p, hp, hpk⟩ := List.mem_map.mp hk
  refine ⟨p.2, mem_objectValues hp, ?_⟩
  rw [bucketFold_names getTime now colorOf records p hp, hpk]

/-! ### Claim theorems about `chartData` -/

/-- C2 counterexample: the batch's only record has an unparseable start time
(so it is invalid), yet its category "A" appears as a key of the output, with
an empty interval list: the bucket is created before the validity check. -/
theorem chartData_bucket_on_invalid_counterexample :
    isValidRecord (fun _ => none) 0 ⟨"i", "A", "bad", none⟩ = false
      ∧ chartData (fun _ => none) 0 (fun _ => none) [⟨"i", "A", "bad", none⟩]
          = some [⟨"A", []⟩] := by
  constructor <;> decide

/-- C2 (amended): when no record's category name is an `Object.prototype`
member (for such names the inherited truthy value suppresses bucket creation,
and a valid record makes the reduce throw), the build succeeds; every record
with an invalid resolved timestamp yields no interval, so the total number of
intervals equals the number of valid records; but the category bucket is
created on first sight of any record, valid or not, so every record's category
appears as a key of the output mapping. -/
theorem chartData_interval_count (getTime : String → Option Int) (now : Int)
    (colorOf : String → Option String) (records : List GameData)
    (hproto : records.all (fun g => !isProtoKey g.category_name) = true) :
    ∃ out, chartData getTime now colorOf records = some out
      ∧ (out.map (fun e => e.data.length)).sum
          = (records.filter (isValidRecord getTime now)).length
      ∧ ∀ g ∈ records, ∃ e ∈ out, e.name = g.category_name := by
  refine ⟨objectValues (bucketFold getTime now colorOf records),
    chartData_some_of_not_proto getTime now colorOf records (noProto_forall hproto),
    ?_, ?_⟩
  · rw [objectValues_sumLen]
    unfold bucketFold
    rw [sumLen_bucketFold]
    simp [sumLen]
  · intro g hg
    exact bucketFold_key_exists getTime now colorOf records g hg

/-- Witness for C2's amended theorem at a concrete invalid-record batch. -/
theorem chartData_interval_count_witness :
    ∃ out, chartData (fun _ => none) 0 (fun _ => none) [⟨"i", "A", "bad", none⟩] = some out
      ∧ (out.map (fun e => e.data.length)).sum
          = ([(⟨"i", "A", "bad", none⟩ : GameData)].filter
              (isValidRecord (fun _ => none) 0)).length
      ∧ ∀ g ∈ [(⟨"i", "A", "bad", none⟩ : GameData)], ∃ e ∈ out, e.name = g.category_name :=
  chartData_interval_count (fun _ => none) 0 (fun _ => none) [⟨"i", "A", "bad", none⟩]
    (by decide)

/-- C4 counterexample: both records are valid; the first-occurrence order of
categories is ["b", "1"], but the output key sequence is ["1", "b"]: the JS
object hoists the array-index-like key "1" ahead of insertion order. -/
theorem chartData_key_order_counterexample :
    (chartData (fun _ => some 0) 0 (fun _ => none)
        [⟨"i1", "b", "t", none⟩, ⟨"i2", "1", "t", none⟩]).map (List.map ChartElem.name)
      = some ["1", "b"]
      ∧ firstOccCategories [⟨"i1", "b", "t", none⟩, ⟨"i2", "1", "t", none⟩] = ["b", "1"]
      ∧ (["1", "b"] : List String) ≠ ["b", "1"] := by
  refine ⟨?_, ?_, ?_⟩ <;> decide

/-- C4 (amended): when no record's category name is an `Object.prototype`
member, the build succeeds; within each category the intervals appear in the
same relative order as their source records (each series' data is the
in-input-order entry list of its category), and the key sequence is the JS
ordinary-object key order of the first-occurrence category list — array-index
-like category names first in ascending numeric order, then the remaining
names in first-occurrence order — not plain first-occurrence order for all
category name strings. -/
theorem chartData_order (getTime : String → Option Int) (now : Int)
    (colorOf : String → Option String) (records : List GameData)
    (hproto : records.all (fun g => !isProtoKey g.category_name) = true) :
    ∃ out, chartData getTime now colorOf records = some out
      ∧ out.map ChartElem.name = jsKeyOrder (firstOccCategories records)
      ∧ ∀ e ∈ out, e.data = entriesFor getTime now colorOf records e.name := by
  refine ⟨objectValues (bucketFold getTime now colorOf records),
    chartData_some_of_not_proto getTime now colorOf records (noProto_forall hproto),
    ?_, ?_⟩
  · rw [objectValues_map_name _ (bucketFold_names getTime now colorOf records),
      bucketFold_keys_eq]
  · exact bucketFold_elem_data getTime now colorOf records

/-- Witness for C4's amended theorem at a concrete two-record batch. -/
theorem chartData_order_witness :
    ∃ out, chartData (fun _ => some 0) 0 (fun _ => none)
        [⟨"i1", "b", "t", none⟩, ⟨"i2", "1", "t", none⟩] = some out
      ∧ out.map ChartElem.name
          = jsKeyOrder (firstOccCategories
              [⟨"i1", "b", "t", none⟩, ⟨"i2", "1", "t", none⟩])
      ∧ ∀ e ∈ out, e.data = entriesFor (fun _ => some 0) 0 (fun _ => none)
          [⟨"i1", "b", "t", none⟩, ⟨"i2", "1", "t", none⟩] e.name :=
  chartData_order (fun _ => some 0) 0 (fun _ => none)
    [⟨"i1", "b", "t", none⟩, ⟨"i2", "1", "t", none⟩] (by decide)

/-- C6 counterexample: at build instant 0, a record whose start time parses to 5
with absent end time yields the interval y = [5, 0]: `endMillis` is the build
instant, and it is strictly smaller than `startMillis`, violating the claimed
`endMillis >= startMillis`. -/
theorem chartData_ongoing_counterexample :
    chartData (fun _ => some 5) 0 (fun _ => none) [⟨"i", "A", "t", none⟩]
        = some [⟨"A", [⟨"i", [5, 0], "#CCCCCC"⟩]⟩]
      ∧ ¬ ((0 : Int) ≥ 5) := by
  constructor <;> decide

/-- C6 (amended): when no record's category name is an `Object.prototype`
member (otherwise the reduce can throw before emitting), a record with a
parseable start time and absent end time yields an interval whose `endMillis`
is the build instant `now`; consequently `endMillis >= startMillis` holds
exactly when the record did not start in the future of the build instant (the
code does not clamp). -/
theorem chartData_ongoing_end_is_now (getTime : String → Option Int) (now st : Int)
    (colorOf : String → Option String) (records : List GameData) (g : GameData)
    (hproto : records.all (fun g => !isProtoKey g.category_name) = true)
    (hg : g ∈ records) (hst : getTime g.start_time = some st) (hend : g.end_time = none) :
    ∃ out, chartData getTime now colorOf records = some out
      ∧ ∃ e ∈ out, e.name = g.category_name
          ∧ (⟨g.instance_name, [st, now], fallbackColor (colorOf g.category_name)⟩
              : DataEntry) ∈ e.data := by
  refine ⟨objectValues (bucketFold getTime now colorOf records),
    chartData_some_of_not_proto getTime now colorOf records (noProto_forall hproto), ?_⟩
  obtain ⟨e, he, hname⟩ := bucketFold_key_exists getTime now colorOf records g hg
  refine ⟨e, he, hname, ?_⟩
  rw [bucketFold_elem_data getTime now colorOf records e he, hname]
  unfold entriesFor
  apply List.mem_filterMap.mpr
  refine ⟨g, List.mem_filter.mpr ⟨hg, decide_eq_true rfl⟩, ?_⟩
  unfold entryOpt
  rw [hst, hend]
  rfl

/-- Witness for C6's amended theorem: start 1, build instant 2. -/
theorem chartData_ongoing_end_is_now_witness :
    ∃ out, chartData (fun _ => some 1) 2 (fun _ => none) [⟨"i", "A", "t", none⟩] = some out
      ∧ ∃ e ∈ out, e.name = "A" ∧ (⟨"i", [1, 2], "#CCCCCC"⟩ : DataEntry) ∈ e.data :=
  chartData_ongoing_end_is_now (fun _ => some 1) 2 1 (fun _ => none)
    [⟨"i", "A", "t", none⟩] ⟨"i", "A", "t", none⟩ (by decide)
    (List.mem_singleton.mpr rfl) rfl rfl

/-- C8 counterexample: a record with both timestamps valid and category
"toString", absent from the (empty) color map: `acc["toString"]` finds the
truthy inherited `Object.prototype.toString`, bucket creation is skipped, and
`acc["toString"].data.push` throws a `TypeError` — the build errors out instead
of emitting an interval with the fallback color. -/
theorem chartData_proto_category_counterexample :
    isValidRecord (fun _ => some 0) 0 ⟨"i", "toString", "t", none⟩ = true
      ∧ chartData (fun _ => some 0) 0 (fun _ => none) [⟨"i", "toString", "t", none⟩]
          = none := by
  constructor <;> decide

/-- C8 (amended): for a valid record whose category is absent from the color
map, provided no record's category name is an `Object.prototype` member (for
such names `categoryColors[category]` finds a truthy inherited value — no
fallback — and the push throws a `TypeError`), the build succeeds and the
record's interval is emitted with the neutral fallback color "#CCCCCC". -/
theorem chartData_missing_color_fallback (getTime : String → Option Int) (now st et : Int)
    (colorOf : String → Option String) (records : List GameData) (g : GameData)
    (hproto : records.all (fun g => !isProtoKey g.category_name) = true)
    (hg : g ∈ records) (hst : getTime g.start_time = some st)
    (het : resolveEnd getTime now g.end_time = some et)
    (hcol : colorOf g.category_name = none) :
    ∃ out, chartData getTime now colorOf records = some out
      ∧ ∃ e ∈ out, e.name = g.category_name
          ∧ (⟨g.instance_name, [st, et], "#CCCCCC"⟩ : DataEntry) ∈ e.data := by
  refine ⟨objectValues (bucketFold getTime now colorOf records),
    chartData_some_of_not_proto getTime now colorOf records (noProto_forall hproto), ?_⟩
  obtain ⟨e, he, hname⟩ := bucketFold_key_exists getTime now colorOf records g hg
  refine ⟨e, he, hname, ?_⟩
  rw [bucketFold_elem_data getTime now colorOf records e he, hname]
  unfold entriesFor
  apply List.mem_filterMap.mpr
  refine ⟨g, List.mem_filter.mpr ⟨hg, decide_eq_true rfl⟩, ?_⟩
  unfold entryOpt
  rw [hst, het]
  simp [mkEntry, fallbackColor, hcol]

/-- Witness for C8's amended theorem at a concrete record with an empty
color map. -/
theorem chartData_missing_color_fallback_witness :
    ∃ out, chartData (fun _ => some 3) 0 (fun _ => none) [⟨"i", "A", "t", some "u"⟩]
        = some out
      ∧ ∃ e ∈ out, e.name = "A" ∧ (⟨"i", [3, 3], "#CCCCCC"⟩ : DataEntry) ∈ e.data :=
  chartData_missing_color_fallback (fun _ => some 3) 0 3 3 (fun _ => none)
    [⟨"i", "A", "t", some "u"⟩] ⟨"i", "A", "t", some "u"⟩ (by decide)
    (List.mem_singleton.mpr rfl) rfl (by decide) rfl

/-- C9: `assign` and `build` are deterministic across invocations: both are
embedded as pure functions of their explicit arguments only (the current
instant is the explicit `now` input of `build`), so identical inputs always
produce identical outputs, independent of call order or prior invocations. -/
theorem assign_build_deterministic :
    (∀ s : String, generateColorFromString s = generateColorFromString s)
      ∧ (∀ (getTime : String → Option Int) (now : Int) (colorOf : String → Option String)
          (records : List GameData),
          chartData getTime now colorOf records = chartData getTime now colorOf records) :=
  ⟨fun _ => rfl, fun _ _ _ _ => rfl⟩
